import Mathlib

/-!
Verification development for the streaming-client subsystem of the
crypto_dashboard repository (src/crypto_app/api/binance_websocket.py).

Modelling conventions (shallow embedding of the Python source):
* Decoded JSON values are modelled by the inductive type Jval.  A JSON
  string is abstracted to the pair of (its parse as a Python float, if
  any; whether it is non-empty), which is all the source ever observes
  of a string through float(...) and truthiness.  Python float values
  are idealised as rationals; none of the tracked claims depends on
  IEEE rounding.
* A raw wire message is an Option Jval: none models a payload on which
  json.loads raises (undecodable), some v models a payload decoding to v.
* Each callback handler is embedded as a pure function from a client
  state to a new state plus the list of callback invocations it performs;
  thread spawns are counted in the state (field spawned), since the claims
  only ask whether and how many connection workers are started.
* Exceptions raised inside a try block of a handler are modelled by the
  handler returning the unchanged state with no events, exactly as the
  except clauses in the source log and drop.
-/

namespace CryptoDash

/-- Decoded JSON value, as handed to the handlers by json.loads.  A string
is abstracted to its float-parse result (numval) and non-emptiness. -/
inductive Jval where
  | num  (q : ℚ)
  | str  (numval : Option ℚ) (nonempty : Bool)
  | bool (b : Bool)
  | arr  (elems : List Jval)
  | obj  (fields : List (String × Jval))
  | null
deriving Repr

/-- Python float(v): succeeds on numbers, numeric strings and booleans,
raises (none) on lists, dicts and None. -/
def pyFloat : Jval → Option ℚ
  | .num q => some q
  | .str o _ => o
  | .bool b => some (if b then 1 else 0)
  | _ => none

/-- Truncation toward zero, the behaviour of Python int() on a float. -/
def ratTrunc (q : ℚ) : ℤ := q.num.tdiv q.den

/-- Python int(v): numbers truncate toward zero; a string must spell an
integer; booleans convert; anything else raises. -/
def pyInt : Jval → Option ℤ
  | .num q => some (ratTrunc q)
  | .str o _ => o.bind fun q => if q.den = 1 then some q.num else none
  | .bool b => some (if b then 1 else 0)
  | _ => none

/-- Python truthiness of a decoded JSON value. -/
def pyTruthy : Jval → Bool
  | .num q => decide (q ≠ 0)
  | .str _ ne => ne
  | .bool b => b
  | .arr es => !es.isEmpty
  | .obj fs => !fs.isEmpty
  | .null => false

/-- Python v.get(key, default): defined on dicts only (anything else
raises AttributeError, caught by the enclosing except and dropped). -/
def pyGet (v : Jval) (key : String) (default : Jval) : Option Jval :=
  match v with
  | .obj fields => some ((fields.lookup key).getD default)
  | _ => none

/-- Python v[i] for a decoded JSON array (IndexError out of range, and a
raise on non-arrays, both modelled as none). -/
def pyIndex (v : Jval) (i : Nat) : Option Jval :=
  match v with
  | .arr es => es.get? i
  | _ => none

/-- Shorthand for float(data.get(key, 0)) as used throughout the source. -/
def getFloat (data : Jval) (key : String) : Option ℚ :=
  (pyGet data key (.num 0)).bind pyFloat

/-- Shorthand for int(data.get(key, 0)) as used throughout the source. -/
def getInt (data : Jval) (key : String) : Option ℤ :=
  (pyGet data key (.num 0)).bind pyInt

/-- Left-to-right effectful map over a list, first failure aborting the
whole computation: the semantics of a Python list comprehension whose
body may raise inside a try block. -/
def traverseOpt (f : α → Option β) : List α → Option (List β)
  | [] => some []
  | a :: as => do
      let b ← f a
      let bs ← traverseOpt f as
      pure (b :: bs)

/-! ## Ticker client (BinanceWebSocketClient) -/

/-- Normalized ticker snapshot built by BinanceWebSocketClient._on_message. -/
structure TickerSnapshot where
  price : ℚ
  high : ℚ
  low : ℚ
  volume : ℚ
  quote_volume : ℚ
  price_change : ℚ
  price_change_percent : ℚ
  timestamp : ℤ
deriving Repr, DecidableEq

/-- Parsing part of BinanceWebSocketClient._on_message: json.loads plus the
construction of the last_data dict.  Returns none exactly when the handler
would raise and drop the message. -/
def parseTicker (m : Option Jval) : Option TickerSnapshot := do
  let data ← m
  let price ← getFloat data "c"
  let high ← getFloat data "h"
  let low ← getFloat data "l"
  let volume ← getFloat data "v"
  let quote_volume ← getFloat data "q"
  let price_change ← getFloat data "p"
  let price_change_percent ← getFloat data "P"
  let timestamp ← getInt data "E"
  pure ⟨price, high, low, volume, quote_volume, price_change,
        price_change_percent, timestamp⟩

/-- Callback invocations a ticker-client handler can perform, plus the
log line emitted when reconnection attempts are exhausted (the source
only logs there; tracking it lets theorems state that exhaustion is
logged rather than surfaced). -/
inductive CbEvent where
  | messageCb (d : TickerSnapshot)
  | errorCb
  | logMaxReconnect
deriving Repr, DecidableEq

/-- Mutable state of one BinanceWebSocketClient instance.  pending counts
scheduled _reconnect_wait tasks that have not woken yet; spawned counts
connection workers started by connect(). -/
structure LifecycleState where
  is_connected : Bool
  is_disconnecting : Bool
  has_on_message : Bool
  has_on_error : Bool
  last_data : Option TickerSnapshot
  reconnect_attempts : Nat
  pending : Nat
  spawned : Nat
deriving Repr, DecidableEq

/-- State of a freshly constructed BinanceWebSocketClient. -/
def initState : LifecycleState :=
  { is_connected := false
    is_disconnecting := false
    has_on_message := false
    has_on_error := false
    last_data := none
    reconnect_attempts := 0
    pending := 0
    spawned := 0 }

/-- Maximum reconnection attempts (_max_reconnect_attempts). -/
def maxReconnectAttempts : Nat := 5

/-- Backoff wait computed in _attempt_reconnect and _reconnect_wait:
min(2 ** attempts, 60) seconds. -/
def reconnectWait (attempt : Nat) : Nat := min (2 ^ attempt) 60

/-- BinanceWebSocketClient._attempt_reconnect: skip when disconnecting;
below the cap, increment the counter and schedule a _reconnect_wait task;
at the cap, only log (the error callback is not invoked). -/
def attemptReconnect (s : LifecycleState) : LifecycleState × List CbEvent :=
  if s.is_disconnecting then (s, [])
  else if s.reconnect_attempts < maxReconnectAttempts then
    ({ s with reconnect_attempts := s.reconnect_attempts + 1,
              pending := s.pending + 1 }, [])
  else (s, [.logMaxReconnect])

/-- External stimuli and method calls a ticker client can receive. -/
inductive Act where
  | setOnMessage
  | setOnError
  | connect
  | onOpen
  | onMessage (m : Option Jval)
  | onError
  | onClose
  | reconnectFire
  | disconnect
deriving Repr

/-- One step of a BinanceWebSocketClient, returning the new state and the
callback invocations performed.  reconnectFire models a scheduled
_reconnect_wait task waking after its sleep: the source calls
self.connect() there unconditionally, with no is_disconnecting check. -/
def step (s : LifecycleState) : Act → LifecycleState × List CbEvent
  | .setOnMessage => ({ s with has_on_message := true }, [])
  | .setOnError => ({ s with has_on_error := true }, [])
  | .connect => ({ s with spawned := s.spawned + 1 }, [])
  | .onOpen => ({ s with is_connected := true, reconnect_attempts := 0 }, [])
  | .onMessage m =>
      match parseTicker m with
      | none => (s, [])
      | some snap =>
          ({ s with last_data := some snap },
           if s.has_on_message then [.messageCb snap] else [])
  | .onError => (s, if s.has_on_error then [.errorCb] else [])
  | .onClose =>
      let s1 := { s with is_connected := false }
      if s1.is_disconnecting then (s1, []) else attemptReconnect s1
  | .reconnectFire =>
      if s.pending = 0 then (s, [])
      else ({ s with pending := s.pending - 1, spawned := s.spawned + 1 }, [])
  | .disconnect =>
      ({ s with is_disconnecting := true, is_connected := false,
                has_on_message := false, has_on_error := false,
                last_data := none }, [])

/-- Run a sequence of acts from a state, accumulating callback events. -/
def runTrace (s : LifecycleState) : List Act → LifecycleState × List CbEvent
  | [] => (s, [])
  | a :: as =>
      let (s1, evs1) := step s a
      let (s2, evs2) := runTrace s1 as
      (s2, evs1 ++ evs2)

/-- States reachable from a freshly constructed client. -/
inductive Reachable : LifecycleState → Prop where
  | init : Reachable initState
  | step {s : LifecycleState} (a : Act) : Reachable s → Reachable (step s a).1

/-! ## Kline client (BinanceKlineClient) -/

/-- One candlestick bar as built by BinanceKlineClient.  The source stores
the value of the x field unconverted, so is_closed keeps the raw Jval. -/
structure KlineBar where
  «open» : ℚ
  high : ℚ
  low : ℚ
  close : ℚ
  volume : ℚ
  time : ℤ
  is_closed : Jval
deriving Repr

/-- Parsing part of BinanceKlineClient._on_message: json.loads, the
data.get of the nested k object and the kline dict construction. -/
def parseKline (m : Option Jval) : Option KlineBar := do
  let data ← m
  let k ← pyGet data "k" (.obj [])
  let o ← getFloat k "o"
  let h ← getFloat k "h"
  let l ← getFloat k "l"
  let c ← getFloat k "c"
  let v ← getFloat k "v"
  let t ← getInt k "t"
  let x ← pyGet k "x" (.bool false)
  pure ⟨o, h, l, c, v, t, x⟩

/-- Guard of the replace-in-place branch: self.klines is non-empty and its
last bar has the same open-time as the incoming bar. -/
def sameLastTime (klines : List KlineBar) (k : KlineBar) : Bool :=
  match klines.getLast? with
  | some last => decide (last.time = k.time)
  | none => false

/-- History update of BinanceKlineClient._on_message: replace the last bar
in place when the open-time matches, otherwise append and, past 100
entries, pop the oldest. -/
def applyKline (klines : List KlineBar) (k : KlineBar) : List KlineBar :=
  if sameLastTime klines k then klines.dropLast ++ [k]
  else if (klines ++ [k]).length > 100 then (klines ++ [k]).tail
  else klines ++ [k]

/-- Parse of one historical kline row (an array from the REST response) in
BinanceKlineClient._fetch_historical_klines: indices 1,2,3,4,7 as floats,
index 0 as int, is_closed hardcoded True. -/
def parseSeedRow (r : Jval) : Option KlineBar := do
  let o ← pyIndex r 1 >>= pyFloat
  let h ← pyIndex r 2 >>= pyFloat
  let l ← pyIndex r 3 >>= pyFloat
  let c ← pyIndex r 4 >>= pyFloat
  let v ← pyIndex r 7 >>= pyFloat
  let t ← pyIndex r 0 >>= pyInt
  pure ⟨o, h, l, c, v, t, .bool true⟩

/-- The append loop of _fetch_historical_klines: rows are appended one by
one; the first row that fails to parse raises, keeping the bars already
appended (the except clause only logs). -/
def seedLoop : List Jval → List KlineBar
  | [] => []
  | r :: rs =>
      match parseSeedRow r with
      | none => []
      | some b => b :: seedLoop rs

/-- Mutable state of one BinanceKlineClient instance. -/
structure KlineState where
  is_connected : Bool
  is_disconnecting : Bool
  has_on_message : Bool
  has_on_error : Bool
  klines : List KlineBar
  last_data : Option KlineBar
  reconnect_attempts : Nat
  pending : Nat
  spawned : Nat
deriving Repr

/-- State of a freshly constructed BinanceKlineClient. -/
def initKlineState : KlineState :=
  { is_connected := false
    is_disconnecting := false
    has_on_message := false
    has_on_error := false
    klines := []
    last_data := none
    reconnect_attempts := 0
    pending := 0
    spawned := 0 }

/-- Callback invocations of a kline client. -/
inductive KCbEvent where
  | messageCb (klines : List KlineBar) (latest : KlineBar)
  | errorCb
  | logMaxReconnect
deriving Repr

/-- BinanceKlineClient.connect: first _fetch_historical_klines (on HTTP
failure the series is left as it was; on success the parsed rows are
appended to the existing list, which is never cleared), then a new
connection worker is spawned.  seedResult is the REST response, none
modelling a failed request. -/
def klineConnect (seedResult : Option (List Jval)) (s : KlineState) : KlineState :=
  let s1 :=
    match seedResult with
    | none => s
    | some rows => { s with klines := s.klines ++ seedLoop rows }
  { s1 with spawned := s1.spawned + 1 }

/-- BinanceKlineClient._attempt_reconnect, identical in logic to the
ticker client's. -/
def klineAttemptReconnect (s : KlineState) : KlineState × List KCbEvent :=
  if s.is_disconnecting then (s, [])
  else if s.reconnect_attempts < maxReconnectAttempts then
    ({ s with reconnect_attempts := s.reconnect_attempts + 1,
              pending := s.pending + 1 }, [])
  else (s, [.logMaxReconnect])

/-- External stimuli and method calls a kline client can receive.  connect
and reconnectFire carry the REST response their seed fetch receives
(reconnect calls self.connect, which fetches the seed again). -/
inductive KAct where
  | setOnMessage
  | setOnError
  | connect (seedResult : Option (List Jval))
  | onOpen
  | onMessage (m : Option Jval)
  | onError
  | onClose
  | reconnectFire (seedResult : Option (List Jval))
  | disconnect
deriving Repr

/-- One step of a BinanceKlineClient. -/
def klineStep (s : KlineState) : KAct → KlineState × List KCbEvent
  | .setOnMessage => ({ s with has_on_message := true }, [])
  | .setOnError => ({ s with has_on_error := true }, [])
  | .connect seedResult => (klineConnect seedResult s, [])
  | .onOpen => ({ s with is_connected := true, reconnect_attempts := 0 }, [])
  | .onMessage m =>
      match parseKline m with
      | none => (s, [])
      | some k =>
          let klines := applyKline s.klines k
          ({ s with last_data := some k, klines := klines },
           if s.has_on_message then [.messageCb klines k] else [])
  | .onError => (s, if s.has_on_error then [.errorCb] else [])
  | .onClose =>
      let s1 := { s with is_connected := false }
      if s1.is_disconnecting then (s1, []) else klineAttemptReconnect s1
  | .reconnectFire seedResult =>
      if s.pending = 0 then (s, [])
      else (klineConnect seedResult { s with pending := s.pending - 1 }, [])
  | .disconnect =>
      ({ s with is_disconnecting := true, is_connected := false,
                has_on_message := false, has_on_error := false,
                klines := [], last_data := none }, [])

/-- Run a sequence of acts on a kline client. -/
def runKline (s : KlineState) : List KAct → KlineState × List KCbEvent
  | [] => (s, [])
  | a :: as =>
      let (s1, evs1) := klineStep s a
      let (s2, evs2) := runKline s1 as
      (s2, evs1 ++ evs2)

/-! ## Depth client (BinanceDepthClient) -/

/-- Normalized order-book snapshot built by BinanceDepthClient._on_message. -/
structure DepthSnapshot where
  bids : List (ℚ × ℚ)
  asks : List (ℚ × ℚ)
  timestamp : ℤ
deriving Repr, DecidableEq

/-- Conversion of one [priceString, qtyString] entry: float(e[0]), float(e[1]). -/
def parseDepthPair (e : Jval) : Option (ℚ × ℚ) := do
  let p ← pyIndex e 0 >>= pyFloat
  let q ← pyIndex e 1 >>= pyFloat
  pure (p, q)

/-- One side of the book: the source slices the raw array to the configured
depth first, then converts each retained entry in order. -/
def parseDepthSide (depth : Nat) (side : List Jval) : Option (List (ℚ × ℚ)) :=
  traverseOpt parseDepthPair (side.take depth)

/-- Python data.get(key, []) followed by iteration: defined when the value
is a decoded JSON array. -/
def pyGetArr (data : Jval) (key : String) : Option (List Jval) := do
  let v ← pyGet data key (.arr [])
  match v with
  | .arr es => some es
  | _ => none

/-- Parsing part of BinanceDepthClient._on_message. -/
def parseDepth (depth : Nat) (m : Option Jval) : Option DepthSnapshot := do
  let data ← m
  let bids ← pyGetArr data "bids" >>= parseDepthSide depth
  let asks ← pyGetArr data "asks" >>= parseDepthSide depth
  let timestamp ← getInt data "E"
  pure ⟨bids, asks, timestamp⟩

/-- The slice of depth-client state its message handler touches. -/
structure DepthState where
  has_on_message : Bool
  last_data : Option DepthSnapshot
deriving Repr, DecidableEq

/-- BinanceDepthClient._on_message: on a parse failure the exception is
logged and nothing changes; on success the snapshot is stored and the
callback, when registered, receives it. -/
def depthOnMessage (depth : Nat) (s : DepthState) (m : Option Jval) :
    DepthState × List DepthSnapshot :=
  match parseDepth depth m with
  | none => (s, [])
  | some snap =>
      ({ s with last_data := some snap },
       if s.has_on_message then [snap] else [])

/-! ## Trades client (BinanceTradesClient) -/

/-- One normalized trade.  The source stores data.get("T", 0) unconverted,
so time keeps the raw Jval; side is the literal BUY or SELL string. -/
structure Trade where
  price : ℚ
  qty : ℚ
  side : String
  time : Jval
deriving Repr

/-- Parsing part of BinanceTradesClient._on_message: side is SELL exactly
when the maker-is-buyer flag m is truthy. -/
def parseTrade (m : Option Jval) : Option Trade := do
  let data ← m
  let price ← getFloat data "p"
  let qty ← getFloat data "q"
  let mflag ← pyGet data "m" (.bool false)
  let time ← pyGet data "T" (.num 0)
  pure ⟨price, qty, if pyTruthy mflag then "SELL" else "BUY", time⟩

/-- Cap of the trade log (max_trades). -/
def maxTrades : Nat := 50

/-- Insertion step of BinanceTradesClient._on_message: insert at the front,
then truncate to max_trades when the length exceeds it. -/
def insertTrade (log : List Trade) (t : Trade) : List Trade :=
  if (t :: log).length > maxTrades then (t :: log).take maxTrades
  else t :: log

/-- Trade log resulting from processing a list of well-formed trades in
arrival order, starting from the empty log of a fresh client. -/
def processTrades (ts : List Trade) : List Trade :=
  List.foldl insertTrade [] ts

/-- Mutable state of one BinanceTradesClient instance. -/
structure TradesState where
  is_connected : Bool
  is_running : Bool
  has_on_message : Bool
  has_on_error : Bool
  trades : List Trade
deriving Repr

/-- BinanceTradesClient._on_message: the running flag is checked before any
parsing; then parse, insert at the front, truncate, and invoke the
callback with the whole log.  The returned list collects the logs passed
to the message callback. -/
def tradesOnMessage (s : TradesState) (m : Option Jval) :
    TradesState × List (List Trade) :=
  if s.is_running = false then (s, [])
  else
    match parseTrade m with
    | none => (s, [])
    | some t =>
        let trades := insertTrade s.trades t
        ({ s with trades := trades },
         if s.has_on_message then [trades] else [])

/-- BinanceTradesClient.disconnect: is_running is cleared first, before the
try block; closing the socket may raise (closeRaises), in which case the
except clause skips the callback and history clearing. -/
def tradesDisconnect (closeRaises : Bool) (s : TradesState) : TradesState :=
  let s1 := { s with is_running := false }
  if closeRaises then s1
  else { s1 with has_on_message := false, has_on_error := false, trades := [] }

/-! ## Helper lemmas -/

/-- attemptReconnect never pushes the attempt counter past the cap. -/
theorem attemptReconnect_attempts_le (s : LifecycleState)
    (h : s.reconnect_attempts ≤ maxReconnectAttempts) :
    (attemptReconnect s).1.reconnect_attempts ≤ maxReconnectAttempts := by
  unfold attemptReconnect
  split_ifs with h1 h2
  · exact h
  · show s.reconnect_attempts + 1 ≤ maxReconnectAttempts
    omega
  · exact h

/-- Every lifecycle step preserves the attempt-counter cap. -/
theorem step_attempts_le (s : LifecycleState) (a : Act)
    (h : s.reconnect_attempts ≤ maxReconnectAttempts) :
    (step s a).1.reconnect_attempts ≤ maxReconnectAttempts := by
  cases a with
  | onMessage m =>
      cases hp : parseTicker m with
      | none => simpa [step, hp] using h
      | some snap => simpa [step, hp] using h
  | onClose =>
      simp only [step]
      split
      · exact h
      · exact attemptReconnect_attempts_le _ h
  | reconnectFire =>
      simp only [step]
      split
      · exact h
      · exact h
  | onOpen => exact Nat.zero_le _
  | _ => exact h

/-- Characterisation of the replace-in-place guard. -/
theorem sameLastTime_iff (klines : List KlineBar) (k : KlineBar) :
    sameLastTime klines k = true ↔
      ∃ last, klines.getLast? = some last ∧ last.time = k.time := by
  unfold sameLastTime
  cases h : klines.getLast? with
  | none => simp
  | some last => simp [h]

/-- A non-empty replace guard forces a non-empty series. -/
theorem sameLastTime_ne_nil {klines : List KlineBar} {k : KlineBar}
    (h : sameLastTime klines k = true) : klines ≠ [] := by
  obtain ⟨last, hl, _⟩ := (sameLastTime_iff klines k).mp h
  intro he
  subst he
  simp at hl

end CryptoDash

namespace CryptoDash

/-! ## Claims -/

/-- C3: for every positive attempt count n the backoff wait computed before
a reconnect is min(2 ^ n, 60) seconds; the waits for attempts 1..5 are
2, 4, 8, 16, 32 seconds; and in every reachable state the attempt counter
never exceeds 5, so no attempt beyond the 5th is ever scheduled. -/
theorem backoff_wait_formula_and_cap :
    (∀ n : Nat, reconnectWait n = min (2 ^ n) 60) ∧
    ((List.range 5).map (fun i => reconnectWait (i + 1)) = [2, 4, 8, 16, 32]) ∧
    (∀ s : LifecycleState, Reachable s →
        s.reconnect_attempts ≤ maxReconnectAttempts) := by
  refine ⟨fun n => rfl, by decide, ?_⟩
  intro s h
  induction h with
  | init => decide
  | step a _ ih => exact step_attempts_le _ a ih

/-- Witness for C3 at the initial state. -/
theorem backoff_wait_formula_and_cap_witness :
    reconnectWait 3 = min (2 ^ 3) 60 ∧
    initState.reconnect_attempts ≤ maxReconnectAttempts :=
  ⟨backoff_wait_formula_and_cap.1 3,
   backoff_wait_formula_and_cap.2.2 initState Reachable.init⟩

/-- C5: a live bar whose open-time equals the last bar's replaces it in
place, leaving the length unchanged; otherwise the bar is appended and,
past 100 entries, the oldest is evicted, so a series of length at most 100
stays at length at most 100. -/
theorem kline_replace_or_append (klines : List KlineBar) (k : KlineBar)
    (hlen : klines.length ≤ 100) :
    (sameLastTime klines k = true →
      applyKline klines k = klines.dropLast ++ [k] ∧
      (applyKline klines k).length = klines.length) ∧
    (sameLastTime klines k = false →
      applyKline klines k =
        if klines.length + 1 > 100 then (klines ++ [k]).tail
        else klines ++ [k]) ∧
    (applyKline klines k).length ≤ 100 := by
  refine ⟨?_, ?_, ?_⟩
  · intro h
    have hne : klines ≠ [] := sameLastTime_ne_nil h
    have hpos : 0 < klines.length := List.length_pos.mpr hne
    constructor
    · unfold applyKline
      rw [if_pos h]
    · unfold applyKline
      rw [if_pos h]
      simp [List.length_dropLast]
      omega
  · intro h
    unfold applyKline
    rw [if_neg (by simp [h])]
    simp [List.length_append]
  · cases hs : sameLastTime klines k with
    | true =>
        unfold applyKline
        rw [if_pos hs]
        have hne : klines ≠ [] := sameLastTime_ne_nil hs
        have hpos : 0 < klines.length := List.length_pos.mpr hne
        simp [List.length_dropLast]
        omega
    | false =>
        unfold applyKline
        rw [if_neg (by simp [hs])]
        simp only [List.length_append, List.length_singleton]
        split
        · simp [List.length_tail, List.length_append]
          omega
        · simp [List.length_append]
          omega

/-- Concrete bar used by witnesses and counterexamples. -/
def kbar (t : ℤ) : KlineBar :=
  ⟨0, 0, 0, 0, 0, t, .bool true⟩

/-- Witness for C5: replacing the only bar of a one-bar series. -/
theorem kline_replace_or_append_witness :
    ([kbar 1000].length ≤ 100) ∧
    (sameLastTime [kbar 1000] (kbar 1000) = true →
      applyKline [kbar 1000] (kbar 1000) = [kbar 1000].dropLast ++ [kbar 1000] ∧
      (applyKline [kbar 1000] (kbar 1000)).length = [kbar 1000].length) :=
  ⟨by simp, (kline_replace_or_append [kbar 1000] (kbar 1000) (by simp)).1⟩

/-- Every insertion puts the new trade at the front of the log. -/
theorem insertTrade_head (log : List Trade) (t : Trade) :
    (insertTrade log t).head? = some t := by
  unfold insertTrade
  split_ifs
  · show ((t :: log).take (49 + 1)).head? = some t
    rw [List.take_succ_cons]
    rfl
  · rfl

/-- The length of the log after one insertion. -/
theorem insertTrade_length (log : List Trade) (t : Trade) :
    (insertTrade log t).length = min (log.length + 1) maxTrades := by
  unfold insertTrade
  split_ifs with h
  · simp only [List.length_take, List.length_cons]
    omega
  · simp only [List.length_cons]
    simp only [List.length_cons] at h
    omega

/-- Length of the log after folding a batch of trades over a small log. -/
theorem foldl_insertTrade_length (ts : List Trade) :
    ∀ init : List Trade, init.length ≤ maxTrades →
      (List.foldl insertTrade init ts).length =
        min (init.length + ts.length) maxTrades := by
  induction ts with
  | nil =>
      intro init h
      simp only [List.foldl_nil, List.length_nil]
      omega
  | cons t ts ih =>
      intro init h
      rw [List.foldl_cons, ih _ (by rw [insertTrade_length]; omega),
          insertTrade_length]
      simp only [List.length_cons]
      omega

/-- The head of the log after a batch ending in a given trade. -/
theorem foldl_insertTrade_head (init ts : List Trade) (t : Trade) :
    (List.foldl insertTrade init (ts ++ [t])).head? = some t := by
  rw [List.foldl_append]
  simp [insertTrade_head]

/-- C7: trades are inserted at the front of the log; after processing more
than 50 well-formed trades the log holds exactly 50 entries and its first
entry is the most recently inserted trade. -/
theorem trade_log_cap_and_front (ts : List Trade) (h : maxTrades < ts.length) :
    (∀ (log : List Trade) (t : Trade), (insertTrade log t).head? = some t) ∧
    (processTrades ts).length = maxTrades ∧
    (processTrades ts).head? = ts.getLast? := by
  refine ⟨insertTrade_head, ?_, ?_⟩
  · unfold processTrades
    rw [foldl_insertTrade_length ts [] (by simp)]
    simp only [List.length_nil]
    omega
  · rcases List.eq_nil_or_concat ts with hnil | ⟨ts', t, hconcat⟩
    · subst hnil
      simp at h
    · subst hconcat
      unfold processTrades
      simp only [List.concat_eq_append]
      rw [foldl_insertTrade_head, List.getLast?_concat]

/-- Concrete trade used by the C7 witness. -/
def sampleTrade : Trade := ⟨1, 2, "BUY", .null⟩

/-- Witness for C7 on a batch of 51 identical trades. -/
theorem trade_log_cap_and_front_witness :
    maxTrades < (List.replicate 51 sampleTrade).length ∧
    (processTrades (List.replicate 51 sampleTrade)).length = maxTrades ∧
    (processTrades (List.replicate 51 sampleTrade)).head? =
      (List.replicate 51 sampleTrade).getLast? :=
  ⟨by simp [maxTrades],
   (trade_log_cap_and_front (List.replicate 51 sampleTrade)
      (by simp [maxTrades])).2⟩

/-- Success of the comprehension embedding yields an element-wise
conversion relation. -/
theorem traverseOpt_forall₂ (f : α → Option β) :
    ∀ (l : List α) (out : List β), traverseOpt f l = some out →
      List.Forall₂ (fun a b => f a = some b) l out := by
  intro l
  induction l with
  | nil =>
      intro out h
      simp only [traverseOpt] at h
      cases h
      exact List.Forall₂.nil
  | cons a as ih =>
      intro out h
      simp only [traverseOpt, Option.bind_eq_bind, Option.bind_eq_some] at h
      obtain ⟨b, hb, bs, hbs, hout⟩ := h
      cases hout
      exact List.Forall₂.cons hb (ih bs hbs)

/-- C8: whatever the length of the incoming bid and ask arrays, each side
of a successfully normalized depth snapshot has at most the configured
depth entries, and those entries are the in-order conversions of the
first entries of the raw input. -/
theorem depth_truncation (depth : Nat) :
    (∀ (side : List Jval) (out : List (ℚ × ℚ)),
        parseDepthSide depth side = some out →
          out.length ≤ depth ∧
          List.Forall₂ (fun e c => parseDepthPair e = some c)
            (side.take depth) out) ∧
    (∀ (m : Option Jval) (snap : DepthSnapshot),
        parseDepth depth m = some snap →
          snap.bids.length ≤ depth ∧ snap.asks.length ≤ depth) := by
  have hside : ∀ (side : List Jval) (out : List (ℚ × ℚ)),
      parseDepthSide depth side = some out →
        out.length ≤ depth ∧
        List.Forall₂ (fun e c => parseDepthPair e = some c)
          (side.take depth) out := by
    intro side out h
    have hf := traverseOpt_forall₂ parseDepthPair (side.take depth) out h
    refine ⟨?_, hf⟩
    have hlen := hf.length_eq
    rw [List.length_take] at hlen
    omega
  refine ⟨hside, ?_⟩
  intro m snap h
  simp only [parseDepth, Option.bind_eq_bind, Option.bind_eq_some] at h
  obtain ⟨data, hdata, bids, hbids, asks, hasks, t, ht, hsnap⟩ := h
  obtain ⟨braw, hbraw, hbconv⟩ := hbids
  obtain ⟨araw, haraw, haconv⟩ := hasks
  cases hsnap
  exact ⟨(hside braw bids hbconv).1, (hside araw asks haconv).1⟩

/-- Raw depth entry used by the C8 witness. -/
def sampleDepthEntry : Jval := .arr [.str (some 1) true, .str (some 2) true]

/-- Raw depth message used by the C8 witness: two bids but depth 1. -/
def sampleDepthMsg : Option Jval :=
  some (.obj [("bids", .arr [sampleDepthEntry, sampleDepthEntry])])

/-- Witness for C8: a two-entry bid array at depth 1 is truncated to one
converted pair. -/
theorem depth_truncation_witness :
    (⟨[(1, 2)], [], 0⟩ : DepthSnapshot).bids.length ≤ 1 ∧
    (⟨[(1, 2)], [], 0⟩ : DepthSnapshot).asks.length ≤ 1 :=
  (depth_truncation 1).2 sampleDepthMsg ⟨[(1, 2)], [], 0⟩ (by decide)

/-- C10: the trades message handler checks the running flag before any
parsing, so after disconnect() every delivered trade message leaves the
client state unchanged and invokes no callback, whether or not the close
handshake raised. -/
theorem trades_ignored_after_disconnect :
    (∀ (s : TradesState) (m : Option Jval), s.is_running = false →
        tradesOnMessage s m = (s, [])) ∧
    (∀ (s : TradesState) (closeRaises : Bool) (m : Option Jval),
        tradesOnMessage (tradesDisconnect closeRaises s) m =
          (tradesDisconnect closeRaises s, [])) := by
  have hrun : ∀ (s : TradesState) (m : Option Jval), s.is_running = false →
      tradesOnMessage s m = (s, []) := by
    intro s m h
    simp [tradesOnMessage, h]
  refine ⟨hrun, ?_⟩
  intro s closeRaises m
  apply hrun
  unfold tradesDisconnect
  split <;> rfl

/-- Concrete trades-client state used by the C10 witness. -/
def sampleTradesState : TradesState :=
  { is_connected := true
    is_running := true
    has_on_message := true
    has_on_error := true
    trades := [sampleTrade] }

/-- Witness for C10: a stopped client ignores a well-formed trade message. -/
theorem trades_ignored_after_disconnect_witness :
    tradesOnMessage { sampleTradesState with is_running := false }
        (some (.obj [("p", .str (some 3) true)])) =
      ({ sampleTradesState with is_running := false }, []) :=
  trades_ignored_after_disconnect.1
    { sampleTradesState with is_running := false }
    (some (.obj [("p", .str (some 3) true)])) rfl

/-- Ticker snapshot produced for a message whose consumed fields are all
absent: every get call falls back to 0. -/
def zeroTicker : TickerSnapshot := ⟨0, 0, 0, 0, 0, 0, 0, 0⟩

/-- Counterexample to C4 as stated: a decodable message with all consumed
fields missing is not dropped; the snapshot is replaced by the all-zero
snapshot and the message callback is invoked with it. -/
theorem missing_field_invokes_callback_cex :
    (step { initState with has_on_message := true }
        (.onMessage (some (.obj [])))).2 = [.messageCb zeroTicker] ∧
    (step { initState with has_on_message := true }
        (.onMessage (some (.obj [])))).1.last_data = some zeroTicker := by
  decide

/-- C4 (amended): whenever a message fails to normalize — an undecodable
payload or a present but non-numeric consumed field — the handler of each
of the four clients leaves the state unchanged and invokes no callback;
missing fields, however, are defaulted to 0 rather than dropped. -/
theorem malformed_message_no_effect :
    (∀ (s : LifecycleState) (m : Option Jval), parseTicker m = none →
        step s (.onMessage m) = (s, [])) ∧
    (∀ (s : KlineState) (m : Option Jval), parseKline m = none →
        klineStep s (.onMessage m) = (s, [])) ∧
    (∀ (d : Nat) (s : DepthState) (m : Option Jval), parseDepth d m = none →
        depthOnMessage d s m = (s, [])) ∧
    (∀ (s : TradesState) (m : Option Jval), parseTrade m = none →
        tradesOnMessage s m = (s, [])) := by
  refine ⟨?_, ?_, ?_, ?_⟩
  · intro s m h
    simp [step, h]
  · intro s m h
    simp [klineStep, h]
  · intro d s m h
    simp [depthOnMessage, h]
  · intro s m h
    by_cases hr : s.is_running = false <;> simp [tradesOnMessage, h, hr]

/-- Ticker message with a present but non-numeric price field. -/
def badTickerMsg : Option Jval := some (.obj [("c", .str none true)])

/-- Kline message with a present but non-numeric field inside k. -/
def badKlineMsg : Option Jval :=
  some (.obj [("k", .obj [("o", .str none true)])])

/-- Depth message with a non-numeric price in its first bid. -/
def badDepthMsg : Option Jval :=
  some (.obj [("bids", .arr [.arr [.str none true, .num 1]])])

/-- Trade message with a non-numeric price field. -/
def badTradeMsg : Option Jval := some (.obj [("p", .str none true)])

/-- Empty depth-client state used by witnesses. -/
def initDepthState : DepthState := ⟨false, none⟩

/-- Witness for C4: each handler drops its non-numeric-field message. -/
theorem malformed_message_no_effect_witness :
    step initState (.onMessage badTickerMsg) = (initState, []) ∧
    klineStep initKlineState (.onMessage badKlineMsg) = (initKlineState, []) ∧
    depthOnMessage 5 initDepthState badDepthMsg = (initDepthState, []) ∧
    tradesOnMessage sampleTradesState badTradeMsg = (sampleTradesState, []) :=
  ⟨malformed_message_no_effect.1 initState badTickerMsg rfl,
   malformed_message_no_effect.2.1 initKlineState badKlineMsg rfl,
   malformed_message_no_effect.2.2.1 5 initDepthState badDepthMsg rfl,
   malformed_message_no_effect.2.2.2 sampleTradesState badTradeMsg rfl⟩

/-- Trace driving a client to the reconnection cap: one connect followed by
six unintentional closes. -/
def exhaustTrace : List Act :=
  [.setOnError, .connect, .onClose, .onClose, .onClose, .onClose, .onClose,
   .onClose]

/-- Counterexample to C2 as stated: with the error callback registered and
the attempt counter at the cap, a further unintentional close emits only
the exhaustion log line; the error callback is never invoked. -/
theorem reconnect_exhausted_cex :
    (runTrace initState exhaustTrace).1.reconnect_attempts =
      maxReconnectAttempts ∧
    (runTrace initState exhaustTrace).1.has_on_error = true ∧
    (runTrace initState exhaustTrace).2 = [.logMaxReconnect] := by
  decide

/-- C2 (amended): an unintentional close arriving with the attempt counter
at the cap schedules no further reconnect and surfaces nothing through the
error callback; exhaustion is only logged. -/
theorem reconnect_exhausted_only_logged (s : LifecycleState)
    (hatt : s.reconnect_attempts = maxReconnectAttempts)
    (hdis : s.is_disconnecting = false) :
    step s .onClose = ({ s with is_connected := false }, [.logMaxReconnect]) := by
  simp [step, attemptReconnect, hdis, hatt]

/-- Lifecycle state at the reconnection cap, used by the C2 witness. -/
def exhaustedState : LifecycleState :=
  { initState with reconnect_attempts := 5, has_on_error := true }

/-- Witness for C2 at a concrete exhausted state. -/
theorem reconnect_exhausted_only_logged_witness :
    step exhaustedState .onClose =
      ({ exhaustedState with is_connected := false }, [.logMaxReconnect]) :=
  reconnect_exhausted_only_logged exhaustedState rfl rfl

/-- Trace for C1: connect, open, one unintentional close (which schedules a
backoff task), then disconnect() returns with the task still sleeping. -/
def staleTrace : List Act := [.connect, .onOpen, .onClose, .disconnect]

/-- C1: the code violates the claim.  After disconnect() has returned with
the intentional-close flag set and one backoff task still pending, the
task waking spawns a second connection worker: _reconnect_wait calls
connect() without rechecking the flag. -/
theorem stale_backoff_reconnects_after_disconnect :
    (runTrace initState staleTrace).1.is_disconnecting = true ∧
    (runTrace initState staleTrace).1.pending = 1 ∧
    (runTrace initState staleTrace).1.spawned = 1 ∧
    (step (runTrace initState staleTrace).1 .reconnectFire).1.spawned = 2 := by
  decide

/-- Minimal live kline message carrying only an open-time. -/
def kmsg (q : ℚ) : Option Jval := some (.obj [("k", .obj [("t", .num q)])])

/-- Trace for the C6 counterexample: an empty seed, then two live bars with
decreasing open-times. -/
def unsortedTrace : List KAct :=
  [.connect none, .onOpen, .onMessage (kmsg 2000), .onMessage (kmsg 1000)]

/-- Counterexample to C6 as stated: a reachable kline-client state whose
series is not sorted ascending by open-time — an out-of-order live bar is
simply appended. -/
theorem kline_series_unsorted_cex :
    ((runKline initKlineState unsortedTrace).1.klines.map fun b => b.time) =
      [2000, 1000] ∧
    ¬ List.Chain' (fun a b : KlineBar => a.time < b.time)
        (runKline initKlineState unsortedTrace).1.klines := by
  have h1 : ((runKline initKlineState unsortedTrace).1.klines.map
      fun b => b.time) = [2000, 1000] := by decide
  refine ⟨h1, fun hc => ?_⟩
  have h2 := List.chain'_map_of_chain' (fun b : KlineBar => b.time)
    (fun a b hab => hab) hc
  rw [h1, List.chain'_cons] at h2
  exact absurd h2.1 (by decide)

/-- C6 (amended): the sorted-strictly-ascending (hence duplicate-free)
invariant is preserved by a live bar only under the additional hypothesis
that its open-time is at least the last bar's; out-of-order bars (and
re-seeding a non-empty series) can break it. -/
theorem kline_sorted_preserved (klines : List KlineBar) (k : KlineBar)
    (hs : List.Chain' (fun a b : KlineBar => a.time < b.time) klines)
    (hle : ∀ last, klines.getLast? = some last → last.time ≤ k.time) :
    List.Chain' (fun a b : KlineBar => a.time < b.time)
      (applyKline klines k) := by
  cases hst : sameLastTime klines k with
  | true =>
      obtain ⟨last, hl, ht⟩ := (sameLastTime_iff klines k).mp hst
      have hne : klines ≠ [] := sameLastTime_ne_nil hst
      unfold applyKline
      rw [if_pos hst]
      have hdecomp : klines.dropLast ++ [klines.getLast hne] = klines :=
        List.dropLast_append_getLast hne
      have hlast_eq : klines.getLast hne = last := by
        have hgl := List.getLast?_eq_getLast klines hne
        rw [hgl] at hl
        exact Option.some_injective _ hl
      rw [← hdecomp] at hs
      rw [List.chain'_append] at hs ⊢
      obtain ⟨h1, _, h3⟩ := hs
      refine ⟨h1, List.chain'_singleton _, ?_⟩
      intro x hx y hy
      have hy' : k = y := by simpa using hy
      have hty : k.time = y.time := by rw [hy']
      have hxlast : x.time < (klines.getLast hne).time :=
        h3 x hx (klines.getLast hne) (by simp)
      rw [hlast_eq, ht] at hxlast
      show x.time < y.time
      omega
  | false =>
      have happ : List.Chain' (fun a b : KlineBar => a.time < b.time)
          (klines ++ [k]) := by
        rw [List.chain'_append]
        refine ⟨hs, List.chain'_singleton _, ?_⟩
        intro x hx y hy
        have hy' : k = y := by simpa using hy
        have hty : k.time = y.time := by rw [hy']
        have hxlast : klines.getLast? = some x := by simpa using hx
        have hle' := hle x hxlast
        have hneq : x.time ≠ k.time := by
          intro he
          have htrue : sameLastTime klines k = true :=
            (sameLastTime_iff _ _).mpr ⟨x, hxlast, he⟩
          rw [hst] at htrue
          exact Bool.false_ne_true htrue
        show x.time < y.time
        omega
      unfold applyKline
      rw [if_neg (by simp [hst])]
      split
      · exact happ.tail
      · exact happ

/-- Witness for C6: appending a later bar to a one-bar series keeps the
series sorted. -/
theorem kline_sorted_preserved_witness :
    List.Chain' (fun a b : KlineBar => a.time < b.time)
      (applyKline [kbar 1000] (kbar 2000)) :=
  kline_sorted_preserved [kbar 1000] (kbar 2000) (List.chain'_singleton _)
    (by intro last hl; simp at hl; subst hl; decide)

/-- Historical seed row with the given open-time (REST array layout:
index 0 open-time, 1-4 prices, 7 volume). -/
def seedRow (t : ℚ) : Jval :=
  .arr [.num t, .str (some 1) true, .str (some 1) true, .str (some 1) true,
        .str (some 1) true, .num 0, .num 0, .str (some 1) true]

/-- Kline client that has connected once (seeding one bar) and reached the
Open state. -/
def connectedKline : KlineState :=
  (runKline initKlineState [.connect (some [seedRow 1000]), .onOpen]).1

/-- Counterexample to C9 as stated: a redundant connect() on an Open kline
client spawns a second connection worker and re-appends the seed,
duplicating the held history. -/
theorem connect_not_idempotent_cex :
    connectedKline.is_connected = true ∧
    connectedKline.spawned = 1 ∧
    (connectedKline.klines.map fun b => b.time) = [1000] ∧
    (klineStep connectedKline (.connect (some [seedRow 1000]))).1.spawned = 2 ∧
    ((klineStep connectedKline
        (.connect (some [seedRow 1000]))).1.klines.map fun b => b.time) =
      [1000, 1000] := by
  decide

/-- C9 (amended): connect() is unguarded — every call, in any state, spawns
one more connection worker, and on a kline client the freshly fetched seed
is appended to the history already held. -/
theorem connect_always_spawns :
    (∀ s : LifecycleState,
        (step s .connect).1 = { s with spawned := s.spawned + 1 }) ∧
    (∀ (ks : KlineState) (rows : List Jval),
        (klineStep ks (.connect (some rows))).1 =
          { ks with klines := ks.klines ++ seedLoop rows,
                    spawned := ks.spawned + 1 }) ∧
    (∀ ks : KlineState,
        (klineStep ks (.connect none)).1 =
          { ks with spawned := ks.spawned + 1 }) :=
  ⟨fun _ => rfl, fun _ _ => rfl, fun _ => rfl⟩

end CryptoDash
